import Mathlib

/-!
# Habit-tracker metrics engine: a shallow embedding

Embedding of the streak / completion-metrics engine of the habit tracker
(`metrics.py`, the per-user statistics of `database.py`, and the
leaderboard sort of `app.py`) together with proofs about its behavior.

Calendar dates are modelled as integers counting days since 1970-01-01
(Python `date` objects support exactly the operations used by the code:
total order, difference in days, adding/subtracting days, and the
`.month` / `.year` / `.weekday()` accessors, all of which are functions
of the day number).  String-encoded dates accepted by the Python code
are identified with their parsed values, matching the stated contract
that the storage layer hands the engine comparable date values.
Percentages are modelled as exact rationals.
-/

set_option maxRecDepth 8000

namespace HabitTracker

/-- Gregorian calendar fields `(year, month, day)` of a day number
(days since 1970-01-01), via the standard civil-from-days conversion
with floor division.  This is the function computed by Python's
`date.fromordinal`-based accessors `.year` / `.month` / `.day`. -/
def civilOfDays (z0 : Int) : Int × Int × Int :=
  let z := z0 + 719468
  let era := Int.ediv z 146097
  let doe := z - era * 146097
  let yoe := Int.ediv (doe - Int.ediv doe 1460 + Int.ediv doe 36524 - Int.ediv doe 146096) 365
  let y := yoe + era * 400
  let doy := doe - (365 * yoe + Int.ediv yoe 4 - Int.ediv yoe 100)
  let mp := Int.ediv (5 * doy + 2) 153
  let d := doy - Int.ediv (153 * mp + 2) 5 + 1
  let m := mp + (if mp < 10 then 3 else -9)
  (y + (if m ≤ 2 then 1 else 0), m, d)

/-- `date.year` of a day number. -/
def dateYear (d : Int) : Int := (civilOfDays d).1

/-- `date.month` of a day number. -/
def dateMonth (d : Int) : Int := (civilOfDays d).2.1

/-- Python `date.weekday()`: Monday = 0 .. Sunday = 6.
Day 0 (1970-01-01) was a Thursday, hence the shift by 3. -/
def pyWeekday (d : Int) : Int := (d + 3).emod 7

/-- `current_date - timedelta(days=current_date.weekday())`: the Monday
anchoring the ISO week of `d` (metrics.py line 103). -/
def weekStart (d : Int) : Int := d - pyWeekday d

/-- A habit-log record as consumed by the metrics engine:
`{habit_id, log_date, completed}`. -/
structure HabitLog where
  habit_id : Int
  log_date : Int
  completed : Bool
deriving DecidableEq, Repr

/-- Result of `calculate_streak`. -/
structure StreakResult where
  current_streak : Nat
  longest_streak : Nat
deriving DecidableEq, Repr

/-- The ordering used by `sorted(..., key=lambda x: x['log_date'], reverse=True)`
(metrics.py lines 36-40): `a` sorts no later than `b` iff `a`'s date is ≥ `b`'s.
Python's sort is stable; we model it with `List.insertionSort` under this total
preorder, which is also stable (ties keep input order), so the two agree. -/
def logDesc (a b : HabitLog) : Prop := b.log_date ≤ a.log_date

instance : DecidableRel logDesc := fun a b => by
  unfold logDesc; infer_instance

instance : IsTotal HabitLog logDesc :=
  ⟨fun a b => le_total b.log_date a.log_date⟩

instance : IsTrans HabitLog logDesc :=
  ⟨fun _ _ _ h1 h2 => le_trans h2 h1⟩

/-- The current-streak walk of `calculate_streak` (metrics.py lines 45-58):
for each log (descending by date), a date equal to the cursor increments
the streak and moves the cursor back one day; a date strictly before the
cursor stops the walk; any other date is passed over. -/
def currentLoop : List HabitLog → Int → Nat → Nat
  | [], _, current_streak => current_streak
  | log :: rest, check_date, current_streak =>
    if log.log_date = check_date then
      currentLoop rest (check_date - 1) (current_streak + 1)
    else if log.log_date < check_date then
      current_streak
    else
      currentLoop rest check_date current_streak

/-- The longest-streak scan of `calculate_streak` (metrics.py lines 60-76):
over the completed logs in ascending date order, a gap of exactly one day
from the previous date extends the running streak (and updates the maximum);
any other gap resets the running streak to 1 without touching the maximum. -/
def longestLoop : List HabitLog → Option Int → Nat → Nat → Nat
  | [], _, _, longest_streak => longest_streak
  | log :: rest, none, temp_streak, longest_streak =>
    longestLoop rest (some log.log_date) (temp_streak + 1)
      (max longest_streak (temp_streak + 1))
  | log :: rest, some prev_date, temp_streak, longest_streak =>
    if log.log_date - prev_date = 1 then
      longestLoop rest (some log.log_date) (temp_streak + 1)
        (max longest_streak (temp_streak + 1))
    else
      longestLoop rest (some log.log_date) 1 longest_streak

/-- `MetricsCalculator.calculate_streak` (metrics.py lines 24-81). -/
def calculate_streak (habit_logs : List HabitLog) (current_date : Int) :
    StreakResult :=
  if habit_logs = [] then ⟨0, 0⟩
  else
    let sorted_logs := List.insertionSort logDesc (habit_logs.filter (·.completed))
    if sorted_logs = [] then ⟨0, 0⟩
    else
      let current_streak := currentLoop sorted_logs current_date 0
      let longest_streak := longestLoop sorted_logs.reverse none 0 0
      ⟨current_streak, max longest_streak current_streak⟩

/-- `MetricsCalculator.calculate_consistency` (metrics.py lines 84-92). -/
def calculate_consistency (habit_logs : List HabitLog) (days : Int) : ℚ :=
  if habit_logs = [] then 0
  else
    let completed_count := habit_logs.countP (·.completed)
    if 0 < days then ((completed_count : ℚ) / (days : ℚ)) * 100 else 0

/-- `weekly_data[week_key]["total"] += t; weekly_data[week_key]["completed"] += c`
on the `defaultdict` (metrics.py lines 99, 109-110): the accumulator is an
insertion-ordered association list `(week_key, total, completed)`, new keys
appended at the end as Python dicts do. -/
def bumpWeek : List (Int × Nat × Nat) → Int → Nat → Nat → List (Int × Nat × Nat)
  | [], k, t, c => [(k, t, c)]
  | (k0, t0, c0) :: rest, k, t, c =>
    if k0 = k then (k0, t0 + t, c0 + c) :: rest
    else (k0, t0, c0) :: bumpWeek rest k t c

/-- The day loop of `calculate_weekly_stats` (metrics.py lines 101-112).
The `while current_date <= end_date` loop runs exactly
`(end_date + 1 - start_date).toNat` times; that count is passed as the
structural recursion argument, and the guard is kept as in the source. -/
def weeklyLoop (all_logs : List HabitLog) (end_date : Int) :
    Nat → Int → List (Int × Nat × Nat) → List (Int × Nat × Nat)
  | 0, _, acc => acc
  | fuel + 1, current_date, acc =>
    if current_date ≤ end_date then
      let day_logs := all_logs.filter (·.log_date = current_date)
      let acc' :=
        if day_logs = [] then acc
        else bumpWeek acc (weekStart current_date) day_logs.length
          (day_logs.countP (·.completed))
      weeklyLoop all_logs end_date fuel (current_date + 1) acc'
    else acc

/-- `MetricsCalculator.calculate_weekly_stats` (metrics.py lines 95-122):
the returned dict maps the ISO-week Monday to the week's completion
percentage, computed from the accumulated (total, completed) pairs. -/
def calculate_weekly_stats (all_logs : List HabitLog)
    (start_date end_date : Int) : List (Int × ℚ) :=
  (weeklyLoop all_logs end_date (end_date + 1 - start_date).toNat start_date []).map
    (fun e => (e.1, if 0 < e.2.1 then ((e.2.2 : ℚ) / (e.2.1 : ℚ)) * 100 else 0))

/-- One row of the list built by `get_habit_completion_trend`. -/
structure TrendEntry where
  date : Int
  completed : Bool
deriving DecidableEq, Repr

/-- The day loop of `get_habit_completion_trend` (metrics.py lines 131-145),
with the same fuel rendering of `while current <= end_date` as `weeklyLoop`. -/
def trendLoop (habit_logs : List HabitLog) (end_date : Int) :
    Nat → Int → List TrendEntry
  | 0, _ => []
  | fuel + 1, current =>
    if current ≤ end_date then
      let log := habit_logs.find? (·.log_date = current)
      ⟨current, (log.map (·.completed)).getD false⟩ ::
        trendLoop habit_logs end_date fuel (current + 1)
    else []

/-- `MetricsCalculator.get_habit_completion_trend` (metrics.py lines 125-147);
`today` stands for `date.today()`. -/
def get_habit_completion_trend (habit_logs : List HabitLog) (days : Int)
    (today : Int) : List TrendEntry :=
  let end_date := today
  let start_date := end_date - (days - 1)
  trendLoop habit_logs end_date (end_date + 1 - start_date).toNat start_date

/-- Result of `calculate_monthly_summary`. -/
structure MonthlySummary where
  total_habits : Nat
  total_completions : Nat
  completion_rate : ℚ
  days_tracked : Nat
deriving DecidableEq, Repr

/-- `MetricsCalculator.calculate_monthly_summary` (metrics.py lines 150-190).
`len(set(...))` is modelled by `List.dedup.length`. -/
def calculate_monthly_summary (all_logs : List HabitLog) (month year : Int) :
    MonthlySummary :=
  let month_logs := all_logs.filter
    (fun log => dateMonth log.log_date = month ∧ dateYear log.log_date = year)
  if month_logs = [] then ⟨0, 0, 0, 0⟩
  else
    let total_completions := month_logs.countP (·.completed)
    let total_possible := month_logs.length
    { total_habits := (month_logs.map (·.habit_id)).dedup.length
      total_completions := total_completions
      completion_rate :=
        if 0 < total_possible then
          ((total_completions : ℚ) / (total_possible : ℚ)) * 100
        else 0
      days_tracked := (month_logs.map (·.log_date)).dedup.length }

/-- A row of the `habits` table, restricted to the columns read by
`get_user_stats` and the leaderboard queries. -/
structure Habit where
  id : Int
  user_id : String
  is_active : Bool
deriving DecidableEq, Repr

/-- The database state seen by `get_user_stats`: the `habits` and
`habit_logs` tables (habit-log rows reuse `HabitLog`). -/
structure DB where
  habits : List Habit
  logs : List HabitLog
deriving Repr

/-- `get_all_habits(active_only=True, user_id=uid)` (database.py lines 92-108):
`SELECT * FROM habits WHERE is_active = 1 AND user_id = ?`. -/
def get_all_habits (db : DB) (uid : String) : List Habit :=
  db.habits.filter (fun h => h.is_active ∧ h.user_id = uid)

/-- `SELECT COUNT(*) FROM habit_logs hl JOIN habits h ON hl.habit_id = h.id
WHERE h.user_id = ? AND hl.log_date = ? AND hl.completed = 1 AND h.is_active = 1`
(database.py lines 286-291 and 301-306): each qualifying log row contributes
one count per matching habit row of the join. -/
def completedCountOn (db : DB) (uid : String) (d : Int) : Nat :=
  (db.logs.map (fun hl =>
    if hl.completed ∧ hl.log_date = d then
      db.habits.countP (fun h => h.id = hl.habit_id ∧ h.is_active ∧ h.user_id = uid)
    else 0)).sum

/-- The `BETWEEN ? AND ?` variant of the same count (database.py lines
272-278), over the window `[s, e]`. -/
def completedCountBetween (db : DB) (uid : String) (s e : Int) : Nat :=
  (db.logs.map (fun hl =>
    if hl.completed ∧ s ≤ hl.log_date ∧ hl.log_date ≤ e then
      db.habits.countP (fun h => h.id = hl.habit_id ∧ h.is_active ∧ h.user_id = uid)
    else 0)).sum

/-- The backward streak walk of `get_user_stats` (database.py lines 296-318).
The `while True` loop breaks when a day is not fully completed, or — after
incrementing — when `current_streak > 365`; each non-breaking iteration
increments `current_streak`, so starting from 0 the loop runs at most 366
iterations, and that bound is supplied as the structural fuel argument. -/
def streakLoop (db : DB) (uid : String) (num_habits : Nat) :
    Nat → Int → Nat → Nat
  | 0, _, current_streak => current_streak
  | fuel + 1, check_date, current_streak =>
    if completedCountOn db uid check_date = num_habits ∧ 0 < num_habits then
      if 365 < current_streak + 1 then current_streak + 1
      else streakLoop db uid num_habits fuel (check_date - 1) (current_streak + 1)
    else current_streak

/-- Result of `get_user_stats`. -/
structure UserStats where
  total_habits : Nat
  completion_rate : ℚ
  completed_today : Bool
  current_streak : Nat
deriving DecidableEq, Repr

/-- Python `round(x, 1)` modelled on exact rationals with round-to-nearest
(Python's float banker's rounding at exact midpoints is outside the scope of
an exact-arithmetic model; no claim depends on midpoint ties). -/
def round1 (q : ℚ) : ℚ := (round (q * 10) : ℤ) / 10

/-- `HabitDatabase.get_user_stats` (database.py lines 251-327); `today`
stands for `date.today()`, and the optional window bounds default to the
trailing 7 days ending today, as in the source. -/
def get_user_stats (db : DB) (uid : String) (today : Int)
    (start_date? end_date? : Option Int) : UserStats :=
  let start_date := start_date?.getD (today - 6)
  let end_date := end_date?.getD today
  let habits := get_all_habits db uid
  if habits = [] then ⟨0, 0, false, 0⟩
  else
    let completed := completedCountBetween db uid start_date end_date
    let total_possible : Int := habits.length * (end_date - start_date + 1)
    let completion_rate : ℚ :=
      if 0 < total_possible then (completed : ℚ) / (total_possible : ℚ) * 100
      else 0
    let completed_today := completedCountOn db uid today = habits.length
    let current_streak := streakLoop db uid habits.length 366 today 0
    ⟨habits.length, round1 completion_rate, completed_today, current_streak⟩

/-- One entry of `leaderboard_data` (app.py lines 209-219), restricted to the
fields read by the sort; `username` identifies the entry. -/
structure LeaderboardEntry where
  username : String
  streak : Nat
  completion_rate : ℚ
deriving DecidableEq, Repr

/-- The ordering of `leaderboard_data.sort(key=lambda x: (x["streak"],
x["completion_rate"]), reverse=True)` (app.py lines 222-223): `a` sorts no
later than `b` iff `a`'s key `(streak, completion_rate)` is lexicographically
≥ `b`'s.  Python's sort is stable; `List.insertionSort` under this total
preorder is the stable descending sort, so the two agree. -/
def lbDesc (a b : LeaderboardEntry) : Prop :=
  b.streak < a.streak ∨ (b.streak = a.streak ∧ b.completion_rate ≤ a.completion_rate)

instance : DecidableRel lbDesc := fun a b => by
  unfold lbDesc; infer_instance

instance : IsTotal LeaderboardEntry lbDesc := by
  constructor
  intro a b
  unfold lbDesc
  rcases Nat.lt_trichotomy a.streak b.streak with h | h | h
  · exact Or.inr (Or.inl h)
  · rcases le_total a.completion_rate b.completion_rate with h2 | h2
    · exact Or.inr (Or.inr ⟨h, h2⟩)
    · exact Or.inl (Or.inr ⟨h.symm, h2⟩)
  · exact Or.inl (Or.inl h)

instance : IsTrans LeaderboardEntry lbDesc := by
  constructor
  intro a b c h1 h2
  unfold lbDesc at *
  rcases h1 with h1 | ⟨h1e, h1r⟩ <;> rcases h2 with h2 | ⟨h2e, h2r⟩
  · exact Or.inl (h2.trans h1)
  · exact Or.inl (h2e ▸ h1)
  · exact Or.inl (h1e ▸ h2)
  · exact Or.inr ⟨h2e.trans h1e, h2r.trans h1r⟩

/-- `leaderboard_data.sort(key=..., reverse=True)` (app.py lines 222-223). -/
def rankLeaderboard (entries : List LeaderboardEntry) : List LeaderboardEntry :=
  List.insertionSort lbDesc entries

/-- A database state with one active habit for user "u" and a completed
log for each of the 366 consecutive days 0, -1, ..., -365. -/
def cexDb : DB :=
  ⟨[⟨1, "u", true⟩], (List.range 366).map (fun i => ⟨1, -(i : Int), true⟩)⟩

/-!  ## Generic facts about the stable sort  -/

theorem orderedInsert_eq_cons {α : Type} (r : α → α → Prop) [DecidableRel r]
    (a : α) (l : List α) (h : ∀ y ∈ l, r a y) :
    List.orderedInsert r a l = a :: l := by
  cases l with
  | nil => rfl
  | cons b t =>
    rw [List.orderedInsert, if_pos (h b (List.mem_cons_self b t))]

/-- Filtering commutes with inserting into a sorted list: the inserted
element survives iff it satisfies the predicate. -/
theorem filter_orderedInsert {α : Type} (r : α → α → Prop) [DecidableRel r]
    [IsTrans α r] (p : α → Bool) (a : α) :
    ∀ l : List α, l.Sorted r →
      (List.orderedInsert r a l).filter p =
        if p a then List.orderedInsert r a (l.filter p) else l.filter p := by
  intro l
  induction l with
  | nil =>
    intro _
    by_cases hpa : p a <;> simp [List.orderedInsert, List.filter, hpa]
  | cons b l IH =>
    intro hs
    by_cases hab : r a b
    · rw [List.orderedInsert, if_pos hab]
      by_cases hpa : p a
      · rw [if_pos hpa]
        have hall : ∀ y ∈ (b :: l).filter p, r a y := by
          intro y hy
          have hy' := List.mem_of_mem_filter hy
          rcases List.mem_cons.mp hy' with h1 | h1
          · exact h1 ▸ hab
          · exact Trans.trans hab (List.rel_of_sorted_cons hs y h1)
        rw [orderedInsert_eq_cons r a _ hall]
        simp [List.filter_cons, hpa]
      · rw [if_neg hpa]
        simp [List.filter_cons, hpa]
    · rw [List.orderedInsert, if_neg hab]
      have IH' := IH hs.of_cons
      by_cases hpb : p b
      · by_cases hpa : p a
        · rw [if_pos hpa]
          rw [List.filter_cons_of_pos hpb, List.filter_cons_of_pos hpb,
            List.orderedInsert, if_neg hab, IH', if_pos hpa]
        · rw [if_neg hpa]
          rw [List.filter_cons_of_pos hpb, List.filter_cons_of_pos hpb,
            IH', if_neg hpa]
      · rw [List.filter_cons_of_neg hpb, List.filter_cons_of_neg hpb, IH']

/-- Filtering commutes with the stable sort. -/
theorem filter_insertionSort {α : Type} (r : α → α → Prop) [DecidableRel r]
    [IsTotal α r] [IsTrans α r] (p : α → Bool) (l : List α) :
    (List.insertionSort r l).filter p = List.insertionSort r (l.filter p) := by
  induction l with
  | nil => rfl
  | cons a l IH =>
    rw [List.insertionSort,
      filter_orderedInsert r p a _ (List.sorted_insertionSort r l), IH]
    by_cases hpa : p a
    · rw [if_pos hpa, List.filter_cons_of_pos hpa, List.insertionSort]
    · rw [if_neg hpa, List.filter_cons_of_neg hpa]

/-!  ## C4: the reported longest streak is at least the current streak  -/

/-- C4.  For every input log list and every asOf date, the StreakResult
returned by `calculate_streak` satisfies `longest_streak >= current_streak`,
because the reported longest streak is the maximum of the longest run found
and the current streak. -/
theorem streak_longest_ge_current (habit_logs : List HabitLog)
    (current_date : Int) :
    (calculate_streak habit_logs current_date).current_streak ≤
      (calculate_streak habit_logs current_date).longest_streak := by
  unfold calculate_streak
  split_ifs with h1
  · exact Nat.le_refl 0
  · by_cases h2 :
      List.insertionSort logDesc (habit_logs.filter (·.completed)) = []
    · rw [if_pos h2]
    · rw [if_neg h2]
      exact le_max_right _ _

/-!  ## C5: a user with no active habits gets the all-zero stats  -/

/-- C5.  For every user with zero active habits, `get_user_stats` returns
`{total_habits := 0, completion_rate := 0, completed_today := false,
current_streak := 0}` regardless of what log data exists, short-circuiting
before any window or streak computation. -/
theorem user_stats_zero_active_habits (db : DB) (uid : String) (today : Int)
    (s e : Option Int) (h : get_all_habits db uid = []) :
    get_user_stats db uid today s e = ⟨0, 0, false, 0⟩ := by
  unfold get_user_stats
  simp [h]

theorem user_stats_zero_active_habits_witness :
    get_all_habits ⟨[⟨1, "v", true⟩], [⟨1, 0, true⟩]⟩ "u" = [] ∧
      get_user_stats ⟨[⟨1, "v", true⟩], [⟨1, 0, true⟩]⟩ "u" 0 none none =
        ⟨0, 0, false, 0⟩ :=
  ⟨by decide, user_stats_zero_active_habits _ "u" 0 none none (by decide)⟩

/-!  ## C7: a month with no matching logs yields the all-zero summary  -/

/-- C7.  For every log list and every (month, year) such that no log entry's
date falls in that month and year, `calculate_monthly_summary` returns the
all-zero summary (completion rate 0) without any division by zero: the empty
filter short-circuits before the rate is computed. -/
theorem monthly_summary_empty_month (all_logs : List HabitLog)
    (month year : Int)
    (h : ∀ log ∈ all_logs,
      ¬(dateMonth log.log_date = month ∧ dateYear log.log_date = year)) :
    calculate_monthly_summary all_logs month year = ⟨0, 0, 0, 0⟩ := by
  unfold calculate_monthly_summary
  have hf : all_logs.filter
      (fun log => dateMonth log.log_date = month ∧ dateYear log.log_date = year) = [] := by
    rw [List.filter_eq_nil_iff]
    intro a ha
    simpa using h a ha
  rw [hf]
  simp

theorem monthly_summary_empty_month_witness :
    (∀ log ∈ ([⟨1, 0, true⟩] : List HabitLog),
      ¬(dateMonth log.log_date = 2 ∧ dateYear log.log_date = 1970)) ∧
      calculate_monthly_summary [⟨1, 0, true⟩] 2 1970 = ⟨0, 0, 0, 0⟩ :=
  ⟨by decide, monthly_summary_empty_month _ 2 1970 (by decide)⟩

/-!  ## C8: consistency is the raw completed count over the window length  -/

/-- C8.  For every log list and every `windowDays > 0`,
`calculate_consistency` returns `100 * (count of completed entries in the
whole list) / windowDays` — it does no internal date filtering of the input —
and the division is guarded so that `windowDays = 0` yields `0` rather than
an error. -/
theorem consistency_spec (habit_logs : List HabitLog) (days : Int) :
    (0 < days → calculate_consistency habit_logs days =
      100 * (habit_logs.countP (·.completed) : ℚ) / (days : ℚ)) ∧
      calculate_consistency habit_logs 0 = 0 := by
  constructor
  · intro hd
    unfold calculate_consistency
    rcases eq_or_ne habit_logs [] with h | h
    · subst h
      simp
    · rw [if_neg h, if_pos hd]
      ring
  · unfold calculate_consistency
    rcases eq_or_ne habit_logs [] with h | h
    · rw [if_pos h]
    · rw [if_neg h, if_neg (by omega)]

/-!  ## C6: the leaderboard ranking  -/

/-- C6.  `rankLeaderboard` orders every entry sequence by the key
`(streak, completion_rate)`, both descending with streak dominant
(the output is sorted under `lbDesc` and is a permutation of the input),
entries with exactly equal keys keep their relative input order (filtering
by any exact key commutes with ranking), and in particular entries with
streaks [5,5,3] and completion rates [80,90,100] come out ordered
[(5,90),(5,80),(3,100)]. -/
theorem leaderboard_rank_spec (entries : List LeaderboardEntry) :
    (rankLeaderboard entries).Pairwise lbDesc ∧
      List.Perm (rankLeaderboard entries) entries ∧
      (∀ s : Nat, ∀ q : ℚ,
        (rankLeaderboard entries).filter
            (fun x => x.streak = s ∧ x.completion_rate = q) =
          entries.filter (fun x => x.streak = s ∧ x.completion_rate = q)) ∧
      rankLeaderboard [⟨"a", 5, 80⟩, ⟨"b", 5, 90⟩, ⟨"c", 3, 100⟩] =
        [⟨"b", 5, 90⟩, ⟨"a", 5, 80⟩, ⟨"c", 3, 100⟩] := by
  refine ⟨List.sorted_insertionSort lbDesc entries,
    List.perm_insertionSort lbDesc entries, ?_, by decide⟩
  intro s q
  rw [rankLeaderboard,
    filter_insertionSort lbDesc (fun x => decide (x.streak = s ∧ x.completion_rate = q)) entries]
  apply List.Sorted.insertionSort_eq
  apply List.pairwise_iff_forall_sublist.mpr
  intro a b hab
  have ha := hab.subset (List.mem_cons_self a [b])
  have hb := hab.subset (List.mem_cons_of_mem a (List.mem_cons_self b []))
  have ha' := List.of_mem_filter ha
  have hb' := List.of_mem_filter hb
  simp only [decide_eq_true_eq] at ha' hb'
  exact Or.inr ⟨hb'.1.trans ha'.1.symm, hb'.2.le.trans ha'.2.symm.le⟩

/-!  ## The streak computation: helper lemmas  -/

/-- Unfolding of `calculate_streak` once the sorted completed list is known
and nonempty. -/
theorem calculate_streak_eq (habit_logs : List HabitLog) (current_date : Int)
    (hne : habit_logs ≠ []) (l : List HabitLog)
    (hl : List.insertionSort logDesc (habit_logs.filter (·.completed)) = l)
    (hlne : l ≠ []) :
    calculate_streak habit_logs current_date =
      ⟨currentLoop l current_date 0,
        max (longestLoop l.reverse none 0 0) (currentLoop l current_date 0)⟩ := by
  unfold calculate_streak
  rw [if_neg hne]
  simp only [hl]
  rw [if_neg hlne]

/-- The current-streak component of `calculate_streak`, in loop form
(the two early returns coincide with the loop on an empty list). -/
theorem current_streak_eq_loop (habit_logs : List HabitLog) (asOf : Int) :
    (calculate_streak habit_logs asOf).current_streak =
      currentLoop (List.insertionSort logDesc (habit_logs.filter (·.completed)))
        asOf 0 := by
  unfold calculate_streak
  dsimp only
  split_ifs with h1 h2
  · subst h1
    rfl
  · rw [h2]
    rfl
  · rfl

/-- Logs dated strictly after the cursor's upper bound `c'` are passed over
by the current-streak walk: filtering them out does not change the result,
for any cursor `c ≤ c'`. -/
theorem currentLoop_filter (l : List HabitLog) : ∀ (c c' : Int) (s : Nat),
    c ≤ c' →
    currentLoop (l.filter (fun x => x.log_date ≤ c')) c s =
      currentLoop l c s := by
  induction l with
  | nil => intros; rfl
  | cons a l IH =>
    intro c c' s hcc
    by_cases h1 : a.log_date ≤ c'
    · rw [List.filter_cons_of_pos (by simpa using h1)]
      rcases lt_trichotomy a.log_date c with h | h | h
      · simp only [currentLoop]
        rw [if_neg (ne_of_lt h), if_neg (ne_of_lt h), if_pos h, if_pos h]
      · simp only [currentLoop]
        rw [if_pos h, if_pos h]
        exact IH (c - 1) c' (s + 1) (by omega)
      · simp only [currentLoop]
        rw [if_neg (ne_of_gt h), if_neg (ne_of_gt h),
          if_neg (not_lt_of_gt h), if_neg (not_lt_of_gt h)]
        exact IH c c' s hcc
    · rw [List.filter_cons_of_neg (by simpa using h1)]
      have h2 : a.log_date ≠ c := by omega
      have h3 : ¬(a.log_date < c) := by omega
      conv_rhs => rw [currentLoop]
      rw [if_neg h2, if_neg h3]
      exact IH c c' s hcc

/-!  ## C3: the two concrete streak scenarios  -/

/-- C3.  For completed entries at exactly D-4, D-3, D-1, D (a gap at D-2)
with asOf = D, `calculate_streak` returns current = 2 and longest = 2; and
for the five consecutive dates D-4 .. D it returns current = longest = 5. -/
theorem streak_examples (D : Int) :
    calculate_streak
        [⟨1, D, true⟩, ⟨1, D - 1, true⟩, ⟨1, D - 3, true⟩, ⟨1, D - 4, true⟩]
        D = ⟨2, 2⟩ ∧
      calculate_streak
        [⟨1, D, true⟩, ⟨1, D - 1, true⟩, ⟨1, D - 2, true⟩, ⟨1, D - 3, true⟩,
          ⟨1, D - 4, true⟩] D = ⟨5, 5⟩ := by
  constructor
  · have hsorted : ([⟨1, D, true⟩, ⟨1, D - 1, true⟩, ⟨1, D - 3, true⟩,
        ⟨1, D - 4, true⟩] : List HabitLog).Sorted logDesc := by
      simp [List.sorted_cons, logDesc]
      omega
    have hl : List.insertionSort logDesc
        (([⟨1, D, true⟩, ⟨1, D - 1, true⟩, ⟨1, D - 3, true⟩,
          ⟨1, D - 4, true⟩] : List HabitLog).filter (·.completed)) =
        [⟨1, D, true⟩, ⟨1, D - 1, true⟩, ⟨1, D - 3, true⟩, ⟨1, D - 4, true⟩] :=
      List.Sorted.insertionSort_eq hsorted
    rw [calculate_streak_eq _ D (by simp) _ hl (by simp)]
    have hcur : currentLoop
        [⟨1, D, true⟩, ⟨1, D - 1, true⟩, ⟨1, D - 3, true⟩, ⟨1, D - 4, true⟩]
        D 0 = 2 := by
      have e1 : ¬(D - 3 = D - 1 - 1) := by omega
      have e2 : D - 3 < D - 1 - 1 := by omega
      simp [currentLoop, e1, e2]
    have hlong : longestLoop
        ([⟨1, D, true⟩, ⟨1, D - 1, true⟩, ⟨1, D - 3, true⟩,
          ⟨1, D - 4, true⟩] : List HabitLog).reverse none 0 0 = 2 := by
      have g1 : (D - 3) - (D - 4) = 1 := by omega
      have g2 : ¬((D - 1) - (D - 3) = 1) := by omega
      have g3 : D - (D - 1) = 1 := by omega
      simp [longestLoop, g1, g2, g3]
    rw [hcur, hlong]
    simp
  · have hsorted : ([⟨1, D, true⟩, ⟨1, D - 1, true⟩, ⟨1, D - 2, true⟩,
        ⟨1, D - 3, true⟩, ⟨1, D - 4, true⟩] : List HabitLog).Sorted logDesc := by
      simp [List.sorted_cons, logDesc]
      omega
    have hl : List.insertionSort logDesc
        (([⟨1, D, true⟩, ⟨1, D - 1, true⟩, ⟨1, D - 2, true⟩, ⟨1, D - 3, true⟩,
          ⟨1, D - 4, true⟩] : List HabitLog).filter (·.completed)) =
        [⟨1, D, true⟩, ⟨1, D - 1, true⟩, ⟨1, D - 2, true⟩, ⟨1, D - 3, true⟩,
          ⟨1, D - 4, true⟩] :=
      List.Sorted.insertionSort_eq hsorted
    rw [calculate_streak_eq _ D (by simp) _ hl (by simp)]
    have hcur : currentLoop
        [⟨1, D, true⟩, ⟨1, D - 1, true⟩, ⟨1, D - 2, true⟩, ⟨1, D - 3, true⟩,
          ⟨1, D - 4, true⟩] D 0 = 5 := by
      have e1 : D - 2 = D - 1 - 1 := by omega
      have e2 : D - 3 = D - 1 - 1 - 1 := by omega
      have e3 : D - 4 = D - 1 - 1 - 1 - 1 := by omega
      simp [currentLoop, e1, e2, e3]
    have hlong : longestLoop
        ([⟨1, D, true⟩, ⟨1, D - 1, true⟩, ⟨1, D - 2, true⟩, ⟨1, D - 3, true⟩,
          ⟨1, D - 4, true⟩] : List HabitLog).reverse none 0 0 = 5 := by
      have g1 : (D - 3) - (D - 4) = 1 := by omega
      have g2 : (D - 2) - (D - 3) = 1 := by omega
      have g3 : (D - 1) - (D - 2) = 1 := by omega
      have g4 : D - (D - 1) = 1 := by omega
      simp [longestLoop, g1, g2, g3, g4]
    rw [hcur, hlong]
    simp

/-!  ## C10: entries dated after asOf  -/

/-- C10.  A completed entry dated strictly after asOf is silently passed
over by the current-streak walk — removing all entries dated after asOf
leaves `current_streak` unchanged, for every input — while the same entry
does participate in the longest-streak scan: with completed entries on
day 0 and day 1 and asOf = 0, the result is current = 1 but longest = 2. -/
theorem streak_future_dated_entries (habit_logs : List HabitLog) (asOf : Int) :
    ((calculate_streak habit_logs asOf).current_streak =
      (calculate_streak (habit_logs.filter (fun l => l.log_date ≤ asOf))
        asOf).current_streak) ∧
      calculate_streak [⟨1, 0, true⟩, ⟨1, 1, true⟩] 0 = ⟨1, 2⟩ := by
  constructor
  · rw [current_streak_eq_loop, current_streak_eq_loop]
    rw [← currentLoop_filter
      (List.insertionSort logDesc (habit_logs.filter (·.completed))) asOf asOf 0
      le_rfl]
    rw [filter_insertionSort logDesc (fun x => decide (x.log_date ≤ asOf))
      (habit_logs.filter (·.completed))]
    rw [List.filter_filter, List.filter_filter]
    congr 1
    exact congrArg (List.insertionSort logDesc)
      (List.filter_congr (fun a _ => Bool.and_comm _ _))
  · decide

theorem consistency_spec_witness :
    (0 : Int) < 2 ∧
      calculate_consistency [⟨1, 0, true⟩, ⟨1, 1, false⟩] 2 =
        100 * (([⟨1, 0, true⟩, ⟨1, 1, false⟩] : List HabitLog).countP
          (·.completed) : ℚ) / ((2 : Int) : ℚ) :=
  ⟨by decide, (consistency_spec [⟨1, 0, true⟩, ⟨1, 1, false⟩] 2).1 (by decide)⟩

/-!  ## C9: the completion trend window  -/

/-- Closed form of the trend loop: with fuel exactly covering the range, it
produces one entry per day from `current` to `end_date`. -/
theorem trendLoop_closed (habit_logs : List HabitLog) (end_date : Int) :
    ∀ (fuel : Nat) (current : Int), current + fuel = end_date + 1 →
    trendLoop habit_logs end_date fuel current =
      (List.range fuel).map (fun i =>
        ⟨current + i,
          ((habit_logs.find? (·.log_date = current + i)).map
            (·.completed)).getD false⟩) := by
  intro fuel
  induction fuel with
  | zero => intro current h; rfl
  | succ n IH =>
    intro current h
    have hle : current ≤ end_date := by omega
    rw [trendLoop, if_pos hle]
    rw [IH (current + 1) (by push_cast at h ⊢; omega)]
    rw [List.range_succ_eq_map, List.map_cons, List.map_map]
    refine congrArg₂ List.cons ?_ ?_
    · norm_num
    · refine List.map_congr_left ?_
      intro i _
      simp only [Function.comp_apply, Nat.cast_succ]
      rw [show current + 1 + (i : Int) = current + ((i : Int) + 1) by ring]

/-- C9.  For every log list and every `windowDays ≥ 1`,
`get_habit_completion_trend` returns exactly `windowDays` entries, one per
calendar day of the trailing window ending today inclusive and ordered
oldest first (entry i carries date `today - (windowDays - 1) + i`), and
each day with no matching log entry is reported with `completed = false`. -/
theorem completion_trend_spec (habit_logs : List HabitLog) (days today : Int)
    (h : 1 ≤ days) :
    (get_habit_completion_trend habit_logs days today).length = days.toNat ∧
      (∀ i : Nat,
        ∀ hi : i < (get_habit_completion_trend habit_logs days today).length,
        ((get_habit_completion_trend habit_logs days today).get ⟨i, hi⟩).date =
          today - (days - 1) + i) ∧
      (∀ i : Nat,
        ∀ hi : i < (get_habit_completion_trend habit_logs days today).length,
        (∀ l ∈ habit_logs, l.log_date ≠ today - (days - 1) + i) →
        ((get_habit_completion_trend habit_logs days today).get
          ⟨i, hi⟩).completed = false) := by
  have hc := trendLoop_closed habit_logs today days.toNat
    (today - (days - 1)) (by omega)
  have hfuel : (today + 1 - (today - (days - 1))).toNat = days.toNat := by
    omega
  have hg : get_habit_completion_trend habit_logs days today =
      (List.range days.toNat).map (fun i =>
        ⟨today - (days - 1) + i,
          ((habit_logs.find? (·.log_date = today - (days - 1) + i)).map
            (·.completed)).getD false⟩) := by
    unfold get_habit_completion_trend
    dsimp only
    rw [hfuel, hc]
  refine ⟨?_, ?_, ?_⟩
  · rw [hg]
    simp
  · intro i hi
    have hi' : i < days.toNat := by
      rw [hg] at hi
      simpa using hi
    simp only [hg, List.get_eq_getElem, List.getElem_map, List.getElem_range]
  · intro i hi hnone
    simp only [hg, List.get_eq_getElem, List.getElem_map, List.getElem_range]
    rw [List.find?_eq_none.mpr]
    · rfl
    · intro x hx
      simpa using hnone x hx

theorem completion_trend_spec_witness :
    (1 : Int) ≤ 3 ∧
      (get_habit_completion_trend [⟨1, -1, true⟩] 3 0).length = (3 : Int).toNat :=
  ⟨by decide, (completion_trend_spec [⟨1, -1, true⟩] 3 0 (by decide)).1⟩

/-!  ## C1: which weeks appear in the weekly aggregate  -/

theorem bumpWeek_keys (k0 : Int) : ∀ (acc : List (Int × Nat × Nat))
    (k : Int) (t c : Nat),
    (k0 ∈ (bumpWeek acc k t c).map Prod.fst ↔
      k0 ∈ acc.map Prod.fst ∨ k0 = k) := by
  intro acc
  induction acc with
  | nil => intro k t c; simp [bumpWeek]
  | cons e rest IH =>
    intro k t c
    obtain ⟨k1, t1, c1⟩ := e
    by_cases h : k1 = k
    · subst h
      rw [bumpWeek, if_pos rfl]
      simp only [List.map_cons, List.mem_cons]
      tauto
    · rw [bumpWeek, if_neg h]
      simp only [List.map_cons, List.mem_cons, IH]
      tauto

/-- Loop invariant: a key is present after running the day loop iff it was
present in the accumulator or some day in the remaining range has a
nonempty set of logs in that key's week. -/
theorem weeklyLoop_keys (all_logs : List HabitLog) (end_date : Int) :
    ∀ (fuel : Nat) (current : Int) (acc : List (Int × Nat × Nat)) (k : Int),
    end_date + 1 ≤ current + fuel →
    (k ∈ (weeklyLoop all_logs end_date fuel current acc).map Prod.fst ↔
      k ∈ acc.map Prod.fst ∨
      ∃ d : Int, current ≤ d ∧ d ≤ end_date ∧ weekStart d = k ∧
        all_logs.filter (·.log_date = d) ≠ []) := by
  intro fuel
  induction fuel with
  | zero =>
    intro current acc k h
    rw [weeklyLoop]
    constructor
    · exact Or.inl
    · rintro (h1 | ⟨d, hd1, hd2, -, -⟩)
      · exact h1
      · omega
  | succ n IH =>
    intro current acc k h
    rw [weeklyLoop]
    by_cases hle : current ≤ end_date
    · rw [if_pos hle]
      dsimp only
      by_cases hd : all_logs.filter (·.log_date = current) = []
      · rw [if_pos hd]
        rw [IH (current + 1) acc k (by omega)]
        constructor
        · rintro (h1 | ⟨d, hd1, hd2, hd3, hd4⟩)
          · exact Or.inl h1
          · exact Or.inr ⟨d, by omega, hd2, hd3, hd4⟩
        · rintro (h1 | ⟨d, hd1, hd2, hd3, hd4⟩)
          · exact Or.inl h1
          · refine Or.inr ⟨d, ?_, hd2, hd3, hd4⟩
            by_cases hdc : d = current
            · exact absurd hd (hdc ▸ hd4)
            · omega
      · rw [if_neg hd]
        rw [IH (current + 1) _ k (by omega)]
        rw [bumpWeek_keys]
        constructor
        · rintro ((h1 | h2) | ⟨d, hd1, hd2, hd3, hd4⟩)
          · exact Or.inl h1
          · exact Or.inr ⟨current, le_refl _, hle, h2.symm, hd⟩
          · exact Or.inr ⟨d, by omega, hd2, hd3, hd4⟩
        · rintro (h1 | ⟨d, hd1, hd2, hd3, hd4⟩)
          · exact Or.inl (Or.inl h1)
          · by_cases hdc : d = current
            · subst hdc
              exact Or.inl (Or.inr hd3.symm)
            · exact Or.inr ⟨d, by omega, hd2, hd3, hd4⟩
    · rw [if_neg hle]
      constructor
      · exact Or.inl
      · rintro (h1 | ⟨d, hd1, hd2, -, -⟩)
        · exact h1
        · omega

/-- C1 counterexample: with no logs at all and the one-day range [0, 0],
the ISO week of day 0 (its Monday is day -3) intersects the range, yet the
returned mapping is empty — no key is present for that week, and in
particular no week maps to the percentage 0.0. -/
theorem weekly_stats_missing_week_cex :
    (0 : Int) ≤ 0 ∧ weekStart 0 ≤ 0 ∧ 0 ≤ weekStart 0 + 6 ∧
      calculate_weekly_stats [] 0 0 = [] := by
  decide

/-- C1 (amended).  The mapping returned by `calculate_weekly_stats` contains
a key k exactly for those ISO weeks (anchored on Monday) that contain at
least one date of [startDate, endDate] carrying at least one log entry;
weeks whose accumulated total would be zero are absent from the mapping
rather than mapped to 0.0. -/
theorem weekly_stats_week_keys (all_logs : List HabitLog)
    (start_date end_date k : Int) :
    k ∈ (calculate_weekly_stats all_logs start_date end_date).map Prod.fst ↔
      ∃ d : Int, start_date ≤ d ∧ d ≤ end_date ∧ weekStart d = k ∧
        all_logs.filter (·.log_date = d) ≠ [] := by
  unfold calculate_weekly_stats
  rw [List.map_map]
  have hfst : (Prod.fst ∘ fun e : Int × Nat × Nat =>
      ((e.1 : Int), if 0 < e.2.1 then ((e.2.2 : ℚ) / (e.2.1 : ℚ)) * 100
        else (0 : ℚ))) = Prod.fst := by
    funext e
    rfl
  rw [hfst]
  rw [weeklyLoop_keys all_logs end_date _ start_date [] k (by omega)]
  simp

/-!  ## C2: the streak safety bound in get_user_stats  -/

theorem streakLoop_le (db : DB) (uid : String) (n : Nat) :
    ∀ (fuel : Nat) (d : Int) (cur : Nat), cur ≤ 365 →
    streakLoop db uid n fuel d cur ≤ 366 := by
  intro fuel
  induction fuel with
  | zero =>
    intro d cur h
    rw [streakLoop]
    omega
  | succ m IH =>
    intro d cur h
    rw [streakLoop]
    by_cases h1 : completedCountOn db uid d = n ∧ 0 < n
    · rw [if_pos h1]
      by_cases h2 : 365 < cur + 1
      · rw [if_pos h2]
        omega
      · rw [if_neg h2]
        exact IH (d - 1) (cur + 1) (by omega)
    · rw [if_neg h1]
      omega

/-- C2 (amended).  For every user and every log history, the current streak
reported by `get_user_stats` never exceeds 366: the backward day-by-day walk
is cut off by the safety check `current_streak > 365`, which runs after the
increment and therefore truncates the reported streak at 366 rather than
raising an error. -/
theorem user_stats_streak_le_366 (db : DB) (uid : String) (today : Int)
    (s e : Option Int) :
    (get_user_stats db uid today s e).current_streak ≤ 366 := by
  unfold get_user_stats
  dsimp only
  split_ifs with h1 h2
  · show (0 : Nat) ≤ 366
    omega
  · show streakLoop db uid (get_all_habits db uid).length 366 today 0 ≤ 366
    exact streakLoop_le db uid _ 366 today 0 (by omega)
  · show streakLoop db uid (get_all_habits db uid).length 366 today 0 ≤ 366
    exact streakLoop_le db uid _ 366 today 0 (by omega)

theorem sum_indicator_range (n : Nat) : ∀ j : Nat,
    (((List.range n).map (fun i => if i = j then (1 : Nat) else 0)).sum) =
      if j < n then 1 else 0 := by
  induction n with
  | zero => intro j; simp
  | succ m IH =>
    intro j
    rw [List.range_succ, List.map_append, List.sum_append, IH j]
    simp only [List.map_cons, List.map_nil, List.sum_cons, List.sum_nil]
    split_ifs <;> omega

/-- In `cexDb`, every one of the 366 days 0, -1, ..., -365 is fully
completed for user "u". -/
theorem cexDb_count (j : Nat) (hj : j < 366) :
    completedCountOn cexDb "u" (-(j : Int)) = 1 := by
  show (((List.range 366).map
      (fun i : Nat => (⟨1, -(i : Int), true⟩ : HabitLog))).map
    (fun hl : HabitLog =>
      if hl.completed ∧ hl.log_date = -(j : Int) then
        (([⟨(1 : Int), "u", true⟩] : List Habit).countP
          (fun h => h.id = hl.habit_id ∧ h.is_active ∧ h.user_id = "u"))
      else 0)).sum = 1
  rw [List.map_map]
  rw [List.map_congr_left (g := fun i => if i = j then (1 : Nat) else 0) ?_]
  · rw [sum_indicator_range 366 j, if_pos hj]
  · intro i _
    simp only [Function.comp_apply]
    by_cases hij : i = j
    · subst hij
      rw [if_pos ⟨trivial, rfl⟩, if_pos rfl]
      rfl
    · have hne : ¬(True ∧ -(i : Int) = -(j : Int)) := by
        rintro ⟨-, h2⟩
        exact hij (by omega)
      rw [if_neg hne, if_neg hij]

/-- If every day of the remaining fuel window is fully completed, the walk
runs to the 366 cutoff. -/
theorem streakLoop_all_completed (db : DB) (uid : String) (n : Nat)
    (hn : 0 < n) : ∀ (fuel : Nat) (cur : Nat) (d : Int), cur + fuel = 366 →
    (∀ j : Nat, j < fuel → completedCountOn db uid (d - j) = n) →
    streakLoop db uid n fuel d cur = 366 := by
  intro fuel
  induction fuel with
  | zero =>
    intro cur d h _
    rw [streakLoop]
    omega
  | succ m IH =>
    intro cur d h hall
    rw [streakLoop]
    have h0 : completedCountOn db uid d = n := by
      have := hall 0 (by omega)
      simpa using this
    rw [if_pos ⟨h0, hn⟩]
    by_cases h2 : 365 < cur + 1
    · rw [if_pos h2]
      omega
    · rw [if_neg h2]
      apply IH (cur + 1) (d - 1) (by omega)
      intro j hj
      rw [show d - 1 - (j : Int) = d - (((j + 1 : Nat) : Int)) by push_cast; ring]
      exact hall (j + 1) (by omega)

/-- C2 counterexample: for the user "u" of `cexDb`, whose single habit is
completed on 366 consecutive days ending today (day 0), `get_user_stats`
reports a current streak of 366 — the walk truncates at 366, not at 365. -/
theorem user_stats_streak_reaches_366 :
    (get_user_stats cexDb "u" 0 none none).current_streak = 366 := by
  have hhab : get_all_habits cexDb "u" = [⟨1, "u", true⟩] := rfl
  have key : streakLoop cexDb "u" 1 366 0 0 = 366 := by
    apply streakLoop_all_completed cexDb "u" 1 (by omega) 366 0 0 (by omega)
    intro j hj
    rw [show (0 : Int) - (j : Int) = -(j : Int) by ring]
    exact cexDb_count j hj
  unfold get_user_stats
  dsimp only
  rw [hhab, if_neg (by simp)]
  simp only [List.length_cons, List.length_nil, Nat.zero_add]
  exact key

end HabitTracker
